import Mathlib

/-!
Verification development for the `pubmed-paper-fetcher` repository
(`src/pubmed_fetcher/fetch.py`).

The Python source is shallowly embedded: Python strings are Lean `String`
(with character-level operations carried out on `List Char`), Python `None`
becomes `Option.none`, and code that can raise an exception returns
`Except String _`.  Python's `str.lower` is modeled on ASCII letters
(`Char.toLower`), which agrees with CPython on every string the keyword
vocabularies can match.
-/

/-- The company keyword vocabulary, copied from `COMPANY_KEYWORDS` in
`fetch.py`. -/
def COMPANY_KEYWORDS : List String :=
  ["pharma", "biotech", "therapeutics", "inc", "ltd", "llc", "gmbh",
   "laboratories", "solutions"]

/-- The academic keyword vocabulary, copied from `ACADEMIC_KEYWORDS` in
`fetch.py`. -/
def ACADEMIC_KEYWORDS : List String :=
  ["university", "institute", "college", "hospital", "school", "department",
   "center", "centre", "academy"]

/-- Model of Python `str.lower()` (ASCII case folding). -/
def pyLower (s : String) : String := String.mk (s.data.map Char.toLower)

/-- `hasSubstr sub l` models Python's substring test `sub in l`:
it decides whether `sub` occurs contiguously inside `l`. -/
def hasSubstr (sub : List Char) : List Char → Bool
  | [] => sub.isEmpty
  | c :: rest => sub.isPrefixOf (c :: rest) || hasSubstr sub rest

/-- `is_company_affiliation` from `fetch.py`: lower-case the affiliation,
return true when some company keyword occurs as a substring and no academic
keyword does. -/
def is_company_affiliation (affiliation : String) : Bool :=
  let a := pyLower affiliation
  (COMPANY_KEYWORDS.any (fun word => hasSubstr word.data a.data))
    && !(ACADEMIC_KEYWORDS.any (fun word => hasSubstr word.data a.data))

/-- The lower-cased text contains some keyword of the company vocabulary. -/
def companyHit (s : String) : Prop :=
  ∃ w ∈ COMPANY_KEYWORDS, w.data <:+: (pyLower s).data

/-- The lower-cased text contains some keyword of the academic vocabulary. -/
def academicHit (s : String) : Prop :=
  ∃ w ∈ ACADEMIC_KEYWORDS, w.data <:+: (pyLower s).data

theorem isPrefixOf_true_iff (l₁ l₂ : List Char) :
    l₁.isPrefixOf l₂ = true ↔ l₁ <+: l₂ := List.isPrefixOf_iff_prefix

theorem hasSubstr_true_iff (sub l : List Char) :
    hasSubstr sub l = true ↔ sub <:+: l := by
  induction l with
  | nil =>
    simp [hasSubstr, List.infix_nil, List.isEmpty_iff]
  | cons c rest ih =>
    simp only [hasSubstr, Bool.or_eq_true, isPrefixOf_true_iff, ih,
      List.infix_cons_iff]

instance (s : String) : Decidable (companyHit s) := by
  unfold companyHit; infer_instance

instance (s : String) : Decidable (academicHit s) := by
  unfold academicHit; infer_instance

/-- C1: the classifier returns true iff the lower-cased text contains a
company keyword as a substring and contains no academic keyword as a
substring; the empty affiliation text classifies false. -/
theorem c1_classifier_iff (s : String) :
    (is_company_affiliation s = true ↔ (companyHit s ∧ ¬ academicHit s)) ∧
    is_company_affiliation "" = false := by
  constructor
  · simp only [is_company_affiliation, Bool.and_eq_true, Bool.not_eq_true',
      List.any_eq_false, List.any_eq_true, hasSubstr_true_iff,
      companyHit, academicHit]
    constructor
    · rintro ⟨⟨w, hw, hsub⟩, hno⟩
      exact ⟨⟨w, hw, hsub⟩, fun ⟨v, hv, hvsub⟩ =>
        by simpa [hvsub] using hno v hv⟩
    · rintro ⟨⟨w, hw, hsub⟩, hno⟩
      refine ⟨⟨w, hw, hsub⟩, fun v hv => ?_⟩
      by_contra hcon
      exact hno ⟨v, hv, by simpa using hcon⟩
  · decide

/-- C1 witness: concrete evaluations through `c1_classifier_iff`. -/
theorem c1_classifier_iff_witness :
    is_company_affiliation "XYZ Pharma Inc" = true ∧
    is_company_affiliation "Acme Biotech University" = false := by
  constructor
  · exact (c1_classifier_iff "XYZ Pharma Inc").1.mpr (by decide)
  · have h := (c1_classifier_iff "Acme Biotech University").1
    by_contra hcon
    rw [Bool.not_eq_false] at hcon
    exact absurd (h.mp hcon).2 (by decide)

/-- Character class `[A-Za-z0-9._%+-]` of the email regex (local part). -/
def isLocalChar (c : Char) : Bool :=
  c.isAlpha || c.isDigit || c == '.' || c == '_' || c == '%' || c == '+' || c == '-'

/-- Character class `[A-Za-z0-9.-]` of the email regex (domain part). -/
def isDomainChar (c : Char) : Bool :=
  c.isAlpha || c.isDigit || c == '.' || c == '-'

/-- First `some` produced by `f` along a list. -/
def firstSome {α β : Type} (f : α → Option β) : List α → Option β
  | [] => none
  | a :: as =>
    match f a with
    | some b => some b
    | none => firstSome f as

/-- `[n, n-1, ..., 1]`: candidate lengths for the greedy `+` quantifier,
longest first, mirroring the backtracking order of Python's `re`. -/
def descRange : Nat → List Nat
  | 0 => []
  | n + 1 => (n + 1) :: descRange n

/-- Try to end the domain `[A-Za-z0-9.-]+` after `j` characters of `t`:
the next character must be a literal dot followed by at least two ASCII
letters (`\.[A-Za-z]{2,}`, greedy). -/
def tryDomainSplit (t : List Char) (j : Nat) : Option (List Char) :=
  match t.drop j with
  | '.' :: rest =>
    let tld := rest.takeWhile Char.isAlpha
    if 2 ≤ tld.length then some (t.take j ++ '.' :: tld) else none
  | _ => none

/-- Match `[A-Za-z0-9.-]+\.[A-Za-z]{2,}` at the start of `t`, with the
greedy/backtracking semantics of Python's `re` engine. -/
def matchDomain (t : List Char) : Option (List Char) :=
  firstSome (tryDomainSplit t) (descRange (t.takeWhile isDomainChar).length)

/-- Match the whole email pattern anchored at the start of `t`.  Since `@`
is in neither character class, the local part `[A-Za-z0-9._%+-]+` can only
match its maximal run. -/
def matchEmailAt (t : List Char) : Option (List Char) :=
  let lp := t.takeWhile isLocalChar
  if lp.isEmpty then none
  else
    match t.drop lp.length with
    | '@' :: rest =>
      match matchDomain rest with
      | some d => some (lp ++ '@' :: d)
      | none => none
    | _ => none

/-- Model of `re.search(r"[A-Za-z0-9._%+-]+@[A-Za-z0-9.-]+\.[A-Za-z]{2,}", s)`:
try each start position from the left, returning the first (leftmost) match. -/
def re_search_email : List Char → Option (List Char)
  | [] => none
  | c :: rest =>
    match matchEmailAt (c :: rest) with
    | some m => some m
    | none => re_search_email rest

/-- One author entry as built by `parse_pubmed_xml`: the `LastName`,
`ForeName` and `AffiliationInfo/Affiliation` texts are `findtext` results,
hence `None` when the sub-element is absent. -/
structure AuthorNode where
  LastName : Option String
  ForeName : Option String
  AffiliationInfo : List (Option String)
deriving DecidableEq

/-- Python string formatting `f"{v}"` of an optional string: `None` prints
as the literal text `"None"`. -/
def pyStr : Option String → String
  | none => "None"
  | some s => s

/-- Python's whitespace test used by `str.strip()` (ASCII whitespace). -/
def isPySpace (c : Char) : Bool :=
  c == ' ' || c == '\t' || c == '\n' || c == '\r' || c == '\u000b' || c == '\u000c'

/-- Strip characters satisfying `p` from both ends of a list. -/
def listStrip (p : Char → Bool) (l : List Char) : List Char :=
  ((l.dropWhile p).reverse.dropWhile p).reverse

/-- Model of Python `str.strip()`. -/
def pyStrip (s : String) : String := String.mk (listStrip isPySpace s.data)

/-- The display name `f"{author.get('LastName', '')} {author.get('ForeName', '')}".strip()`
computed by `extract_authors_info`; the parser always stores both keys, so the
`.get` defaults never apply and `None` prints as `"None"`. -/
def authorName (a : AuthorNode) : String :=
  pyStrip (pyStr a.LastName ++ " " ++ pyStr a.ForeName)

/-- Python truthiness test `not corresponding_email` on the optional email
(the email is kept as a list of characters). -/
def pyFalsy : Option (List Char) → Bool
  | none => true
  | some l => l.isEmpty

/-- `set.add` on the model of the `company_affiliations` set.  The model
keeps the set's contents as a duplicate-free list in first-insertion order;
CPython's own `list(set)` enumeration order is hash-dependent (see C5). -/
def setAdd (s : List String) (x : String) : List String :=
  if x ∈ s then s else s ++ [x]

/-- The loop state of `extract_authors_info`. -/
structure ExtractState where
  non_academic_authors : List String
  company_affiliations : List String
  corresponding_email : Option (List Char)
deriving DecidableEq

/-- The body of the inner `for aff in affiliations` loop of
`extract_authors_info`, for an affiliation text that is an actual string:
classify it (possibly appending the author name and the affiliation text),
then, if no email was captured yet, search it for the first email-shaped
substring. -/
def processAffOk (name : String) (st : ExtractState) (aff_text : String) :
    ExtractState :=
  let st1 :=
    if is_company_affiliation aff_text then
      ExtractState.mk (st.non_academic_authors ++ [name])
        (setAdd st.company_affiliations aff_text) st.corresponding_email
    else st
  if pyFalsy st1.corresponding_email then
    match re_search_email aff_text.data with
    | some m => ExtractState.mk st1.non_academic_authors
        st1.company_affiliations (some m)
    | none => st1
  else st1

/-- The inner loop body including the failure case: when the parser stored
`None` for the affiliation text (`aff.get('Affiliation', '')` returns that
`None` because the key is present), `is_company_affiliation(None)` raises
`AttributeError` at `affiliation.lower()`. -/
def processAff (name : String) (st : ExtractState) :
    Option String → Except String ExtractState
  | none => .error "AttributeError: NoneType object has no attribute lower"
  | some t => .ok (processAffOk name st t)

/-- The inner `for aff in affiliations` loop of `extract_authors_info`. -/
def extractAffs (name : String) :
    ExtractState → List (Option String) → Except String ExtractState
  | st, [] => .ok st
  | st, aff :: rest =>
    match processAff name st aff with
    | .error e => .error e
    | .ok st' => extractAffs name st' rest

/-- The outer `for author in authors` loop of `extract_authors_info`. -/
def extractAuthors :
    ExtractState → List AuthorNode → Except String ExtractState
  | st, [] => .ok st
  | st, a :: rest =>
    match extractAffs (authorName a) st a.AffiliationInfo with
    | .error e => .error e
    | .ok st' => extractAuthors st' rest

/-- `extract_authors_info` from `fetch.py`: returns the list of
non-academic author names, the contents of the `company_affiliations` set,
and the first corresponding email (or `None`). -/
def extract_authors_info (authors : List AuthorNode) :
    Except String (List String × List String × Option (List Char)) :=
  match extractAuthors (ExtractState.mk [] [] none) authors with
  | .error e => .error e
  | .ok st => .ok (st.non_academic_authors, st.company_affiliations,
      st.corresponding_email)

/-- The `PubDate` node: `Year`, `Month`, `Day` texts from `findtext`,
`None` when the sub-element is absent. -/
structure PubDateNode where
  Year : Option String
  Month : Option String
  Day : Option String
deriving DecidableEq

/-- One `PubmedArticle` node as read by `parse_pubmed_xml`: the first
`PMID` and `ArticleTitle` texts (`findtext`, `None` when missing), the
first `PubDate` node (`find`, `None` when missing), and the `Author`
nodes in document order. -/
structure ArticleNode where
  PMID : Option String
  ArticleTitle : Option String
  PubDate : Option PubDateNode
  Authors : List AuthorNode
deriving DecidableEq

/-- Strip `-` characters from both ends: Python `str.strip("-")`. -/
def pyStripDash (s : String) : String :=
  String.mk (listStrip (fun c => c == '-') s.data)

/-- The publication-date computation of `parse_pubmed_xml`: with no
`PubDate` node the date stays `""`; otherwise each component defaults to
`""` (`findtext(..) or ""`) and the result is
`f"{year}-{month}-{day}".strip("-")`. -/
def pubDateOfNode : Option PubDateNode → String
  | none => ""
  | some d =>
    pyStripDash ((d.Year.getD "") ++ "-" ++ (d.Month.getD "") ++ "-" ++ (d.Day.getD ""))

/-- Python `sep.join(xs)`. -/
def pyJoinStr (sep : String) : List String → String
  | [] => ""
  | [x] => x
  | x :: xs => x ++ sep ++ pyJoinStr sep xs

/-- `email or "N/A"`: Python `or` takes the right operand when the email is
falsy (`None` or empty). -/
def pyOrNA : Option (List Char) → String
  | none => "N/A"
  | some l => if l.isEmpty then "N/A" else String.mk l

/-- The flat output record appended by `parse_pubmed_xml` (its six dict
fields, in order). -/
structure Paper where
  PubmedID : Option String
  Title : Option String
  PublicationDate : String
  NonAcademicAuthors : String
  CompanyAffiliations : String
  CorrespondingEmail : String
deriving DecidableEq

/-- The record `parse_pubmed_xml` builds for one qualifying article from
the extractor's results. -/
def mkPaper (a : ArticleNode) (na ca : List String) (em : Option (List Char)) :
    Paper :=
  Paper.mk a.PMID a.ArticleTitle (pubDateOfNode a.PubDate)
    (pyJoinStr "; " na) (pyJoinStr "; " ca) (pyOrNA em)

/-- The per-article body of `parse_pubmed_xml`: run the extractor and
return the record only when `non_acad_authors` is truthy (non-empty). -/
def processArticle (a : ArticleNode) : Except String (Option Paper) :=
  match extract_authors_info a.Authors with
  | .error e => .error e
  | .ok (na, ca, em) =>
    .ok (if na.isEmpty then none else some (mkPaper a na ca em))

/-- `parse_pubmed_xml` from `fetch.py`, over the structured article nodes
of an already well-formed document: build each article's record in
document order, keeping only qualifying papers; an exception while
processing any article aborts the whole parse. -/
def parse_pubmed_xml : List ArticleNode → Except String (List Paper)
  | [] => .ok []
  | a :: rest =>
    match processArticle a with
    | .error e => .error e
    | .ok p? =>
      match parse_pubmed_xml rest with
      | .error e => .error e
      | .ok rs =>
        .ok (match p? with
          | some p => p :: rs
          | none => rs)

/-- Scanner for Python `s.split(sep)` (non-empty `sep`): walk the string
left to right; on a separator occurrence emit the current chunk and
silently consume the remaining `sep.length - 1` separator characters
(tracked by the middle `Nat` argument). -/
def splitGo (sep : List Char) : List Char → Nat → List Char → List (List Char)
  | acc, _ + 1, [] => [acc.reverse]
  | acc, skip + 1, _ :: rest => splitGo sep acc skip rest
  | acc, 0, [] => [acc.reverse]
  | acc, 0, c :: rest =>
    if sep.isPrefixOf (c :: rest) then
      acc.reverse :: splitGo sep [] (sep.length - 1) rest
    else
      splitGo sep (c :: acc) 0 rest

/-- Python `s.split(sep)` at the character-list level. -/
def pySplitList (sep s : List Char) : List (List Char) := splitGo sep [] 0 s

/-- Python `s.split(sep)` on strings. -/
def pySplitStr (sep s : String) : List String :=
  (pySplitList sep.data s.data).map String.mk

/-- Outcome of one `fetch_and_process_papers` run.  `noResults` stands for
the early `print("No papers found."); return` branch; `failure` for the
`except` branch printing `"Error: ..."`. -/
inductive RunOutcome where
  | noResults : RunOutcome
  | success : List Paper → Option String → RunOutcome
  | failure : String → RunOutcome
deriving DecidableEq

/-- The papers held by an outcome (the output collection handed to the
sink; empty when no papers were produced). -/
def outcomePapers : RunOutcome → List Paper
  | .noResults => []
  | .success papers _ => papers
  | .failure _ => []

/-- The pure control flow of `fetch_and_process_papers`: the network
retrieval of the citation document is modeled by the `doc` parameter, and
the returned `Bool` records whether `fetch_pubmed_details` (document
retrieval plus parse) was invoked at all.  An empty ID list short-circuits
before any document retrieval. -/
def fetch_and_process_papers (pubmed_ids : List String)
    (doc : List ArticleNode) (output_file : Option String) :
    RunOutcome × Bool :=
  if pubmed_ids.isEmpty then (RunOutcome.noResults, false)
  else
    match parse_pubmed_xml doc with
    | .ok papers => (RunOutcome.success papers output_file, true)
    | .error e => (RunOutcome.failure ("Error: " ++ e), true)

/-- All affiliation texts of all authors, in document order, with the
parser's `None` entries read back through `aff.get('Affiliation', '')`
(they only ever reach the loop when extraction does not raise). -/
def affTexts : List AuthorNode → List (List Char)
  | [] => []
  | a :: rest => a.AffiliationInfo.map (fun o => (o.getD "").data) ++ affTexts rest

/-- Spec-side definition, following the claim's words: the first
email-shaped substring encountered while scanning every affiliation text
in document order (the leftmost match of the first text containing one). -/
def firstEmailSpec : List (List Char) → Option (List Char)
  | [] => none
  | t :: ts =>
    match re_search_email t with
    | some m => some m
    | none => firstEmailSpec ts

/-- The email-state transition performed for one affiliation text. -/
def emailStep (t : List Char) (e : Option (List Char)) : Option (List Char) :=
  if pyFalsy e then
    match re_search_email t with
    | some m => some m
    | none => e
  else e

/-- The email state after scanning a list of affiliation texts. -/
def emailFold : List (List Char) → Option (List Char) → Option (List Char)
  | [], e => e
  | t :: ts, e => emailFold ts (emailStep t e)

theorem string_data_append (s t : String) : (s ++ t).data = s.data ++ t.data :=
  String.data_append s t

theorem string_mk_data (s : String) : String.mk s.data = s := by
  cases s
  rfl

/-- C9: with an empty ID list the orchestrator short-circuits into the
"no results" outcome (not the error outcome), its output collection is
empty, and the document retrieval / parse step is never invoked, whatever
the document would have contained. -/
theorem c9_empty_ids_short_circuit (doc : List ArticleNode)
    (output_file : Option String) :
    fetch_and_process_papers [] doc output_file = (RunOutcome.noResults, false) ∧
    outcomePapers (fetch_and_process_papers [] doc output_file).1 = [] ∧
    (∀ msg, (fetch_and_process_papers [] doc output_file).1 ≠ RunOutcome.failure msg) := by
  refine ⟨rfl, rfl, ?_⟩
  intro msg h
  simp [fetch_and_process_papers] at h

/-- C4: evaluating the code at the failing input.  An `AffiliationInfo`
node without an `Affiliation` child makes the parser store `None` as the
affiliation text, and `is_company_affiliation(None)` then raises
`AttributeError` at `affiliation.lower()` — the parse aborts instead of
treating the missing text as the empty string. -/
theorem c4_missing_affiliation_text_raises :
    parse_pubmed_xml
      [ArticleNode.mk (some "1") (some "T") none
        [AuthorNode.mk (some "Doe") (some "John") [none]]] =
    .error "AttributeError: NoneType object has no attribute lower" := rfl

/-- C10 counterexample: with both name parts present the code applies
`str.strip()` to the concatenation, so for a last name carrying leading
whitespace the display name differs from `lastName ++ " " ++ foreName`. -/
theorem c10_name_counterexample :
    authorName (AuthorNode.mk (some " Smith") (some "John") []) ≠
      " Smith" ++ " " ++ "John" := by decide

theorem dropWhile_append_cons_of_neg (p : Char → Bool) (c : Char)
    (hc : p c = false) (m : List Char) :
    ∀ l : List Char, (c :: m) <:+ (l ++ c :: m).dropWhile p := by
  intro l
  induction l with
  | nil => simp [List.dropWhile_cons, hc]
  | cons a l' ih =>
    by_cases ha : p a = true
    · simpa [List.dropWhile_cons, ha] using ih
    · rw [Bool.not_eq_true] at ha
      simp only [List.cons_append, List.dropWhile_cons, ha]
      exact (List.suffix_append l' (c :: m)).trans (List.suffix_cons a _)

theorem listStrip_suffix_of_clean_tail (p : Char → Bool) (c : Char)
    (hc : p c = false) (m : List Char) (hm : ∀ x ∈ m, p x = false)
    (l : List Char) : (c :: m) <:+ listStrip p (l ++ c :: m) := by
  obtain ⟨u, hu⟩ := dropWhile_append_cons_of_neg p c hc m l
  unfold listStrip
  rw [← hu]
  rcases List.eq_nil_or_concat (c :: m) with h | ⟨m', a, hsplit⟩
  · exact absurd h (by simp)
  · rw [List.concat_eq_append] at hsplit
    have ha : p a = false := by
      have hmem : a ∈ c :: m := by
        rw [hsplit]
        exact List.mem_append_right m' (by simp)
      rcases List.mem_cons.mp hmem with h1 | h2
      · rwa [h1]
      · exact hm a h2
    rw [hsplit]
    rw [show u ++ (m' ++ [a]) = (u ++ m') ++ [a] by simp,
      List.reverse_append]
    simp only [List.reverse_cons, List.reverse_nil, List.nil_append,
      List.singleton_append]
    rw [List.dropWhile_cons, if_neg (by simp [ha])]
    rw [show (a :: (u ++ m').reverse).reverse = (u ++ m') ++ [a] by simp]
    rw [show (u ++ m') ++ [a] = u ++ (m' ++ [a]) by simp]
    exact List.suffix_append u (m' ++ [a])

/-- C10 amended: the display name is the *whitespace-trimmed*
concatenation; an absent `LastName`/`ForeName` contributes the literal
text `"None"` (never omitted), which survives trimming. -/
theorem c10_name_amended :
    (∀ last affs, authorName (AuthorNode.mk (some last) none affs) =
        pyStrip (last ++ " None")) ∧
    (∀ fore affs, authorName (AuthorNode.mk none (some fore) affs) =
        pyStrip ("None " ++ fore)) ∧
    (∀ affs, authorName (AuthorNode.mk none none affs) = "None None") ∧
    (∀ last fore affs, authorName (AuthorNode.mk (some last) (some fore) affs) =
        pyStrip (last ++ " " ++ fore)) ∧
    (∀ last affs, ("None".data) <:+
        (authorName (AuthorNode.mk (some last) none affs)).data) := by
  refine ⟨?_, ?_, ?_, ?_, ?_⟩
  · intro last affs
    show pyStrip (last ++ " " ++ "None") = pyStrip (last ++ " None")
    congr 1
    refine String.ext ?_
    simp [string_data_append]
  · intro fore affs
    rfl
  · intro affs
    rfl
  · intro last fore affs
    rfl
  · intro last affs
    show "None".data <:+ (pyStrip (last ++ " " ++ "None")).data
    show "None".data <:+ listStrip isPySpace (last ++ " " ++ "None").data
    rw [show (last ++ " " ++ "None").data = (last.data ++ [' ']) ++ "None".data by
      simp [string_data_append]]
    rw [show ("None".data : List Char) = 'N' :: "one".data from rfl]
    exact listStrip_suffix_of_clean_tail isPySpace 'N' (by decide) "one".data
      (by decide) (last.data ++ [' '])

/-- C7 counterexample: an absent `Month` between a present `Year` and
`Day` leaves both interior separators in place — `strip("-")` only trims
the ends — contradicting "the result contains no separator in place of an
absent component" (which would give `"2020-15"`). -/
theorem c7_gap_counterexample :
    pubDateOfNode (some (PubDateNode.mk (some "2020") none (some "15"))) = "2020--15" ∧
    ("2020--15" : String) ≠ "2020-15" := by
  constructor
  · rfl
  · decide

theorem dropWhile_replicate_append (p : Char → Bool) (c : Char)
    (hc : p c = true) (t : List Char) :
    ∀ k, (List.replicate k c ++ t).dropWhile p = t.dropWhile p := by
  intro k
  induction k with
  | zero => simp
  | succ n ih => simp [List.replicate_succ, List.dropWhile_cons, hc, ih]

theorem listStrip_dash_eq (M : List Char) (k : Nat)
    (h1 : ∃ c t, M = c :: t ∧ (c == '-') = false)
    (h2 : ∃ t a, M = t ++ [a] ∧ (a == '-') = false) :
    listStrip (fun c => c == '-') (M ++ List.replicate k '-') = M := by
  obtain ⟨c, t, hM, hc⟩ := h1
  obtain ⟨t', a, hM', ha⟩ := h2
  unfold listStrip
  rw [show (M ++ List.replicate k '-').dropWhile (fun c => c == '-') =
        M ++ List.replicate k '-' by
      rw [hM, List.cons_append, List.dropWhile_cons, if_neg (by simp [hc])]]
  rw [List.reverse_append, List.reverse_replicate,
    dropWhile_replicate_append (fun c => c == '-') '-' (by decide)]
  rw [hM', List.reverse_append]
  simp only [List.reverse_cons, List.reverse_nil, List.nil_append,
    List.singleton_append]
  rw [List.dropWhile_cons, if_neg (by simp [ha])]
  simp

/-- C7 amended: the publication date is `f"{year}-{month}-{day}".strip("-")`:
absent components default to `""` and only *leading and trailing* `-`
separators are trimmed.  A year-only date yields `"2020"` and a year+month
date yields `"2020-Jan"`, but an absent month between a present year and
day leaves both interior separators (`"2020--15"`).  Component strings are
assumed non-empty and free of `-` characters. -/
theorem c7_pubdate_amended (y m d : String)
    (hy : y.data ≠ []) (hynd : ∀ c ∈ y.data, (c == '-') = false)
    (hm : m.data ≠ []) (hmnd : ∀ c ∈ m.data, (c == '-') = false)
    (hd : d.data ≠ []) (hdnd : ∀ c ∈ d.data, (c == '-') = false) :
    pubDateOfNode (some (PubDateNode.mk (some y) (some m) (some d))) =
      y ++ "-" ++ m ++ "-" ++ d ∧
    pubDateOfNode (some (PubDateNode.mk (some y) (some m) none)) =
      y ++ "-" ++ m ∧
    pubDateOfNode (some (PubDateNode.mk (some y) none none)) = y ∧
    pubDateOfNode (some (PubDateNode.mk (some y) none (some d))) =
      y ++ "--" ++ d := by
  obtain ⟨cy, ty, hysplit⟩ := List.exists_cons_of_ne_nil hy
  have hcy : (cy == '-') = false := hynd cy (by rw [hysplit]; simp)
  refine ⟨?_, ?_, ?_, ?_⟩
  · refine String.ext ?_
    show listStrip (fun c => c == '-')
        (y ++ "-" ++ m ++ "-" ++ d).data = (y ++ "-" ++ m ++ "-" ++ d).data
    obtain ⟨td, ad, hdsplit⟩ := List.eq_nil_or_concat d.data |>.resolve_left hd
    rw [List.concat_eq_append] at hdsplit
    have had : (ad == '-') = false := hdnd ad (by rw [hdsplit]; simp)
    have := listStrip_dash_eq (y.data ++ '-' :: m.data ++ '-' :: d.data) 0
      ⟨cy, ty ++ '-' :: m.data ++ '-' :: d.data, by rw [hysplit]; simp, hcy⟩
      ⟨y.data ++ '-' :: m.data ++ '-' :: td, ad, by rw [hdsplit]; simp, had⟩
    simp only [List.replicate, List.append_nil] at this
    simp only [string_data_append]
    simpa using this
  · refine String.ext ?_
    show listStrip (fun c => c == '-')
        (y ++ "-" ++ m ++ "-" ++ "").data = (y ++ "-" ++ m).data
    obtain ⟨tm, am, hmsplit⟩ := List.eq_nil_or_concat m.data |>.resolve_left hm
    rw [List.concat_eq_append] at hmsplit
    have ham : (am == '-') = false := hmnd am (by rw [hmsplit]; simp)
    have := listStrip_dash_eq (y.data ++ '-' :: m.data) 1
      ⟨cy, ty ++ '-' :: m.data, by rw [hysplit]; simp, hcy⟩
      ⟨y.data ++ '-' :: tm, am, by rw [hmsplit]; simp, ham⟩
    simp only [List.replicate] at this
    simp only [string_data_append]
    simpa using this
  · refine String.ext ?_
    show listStrip (fun c => c == '-')
        (y ++ "-" ++ "" ++ "-" ++ "").data = y.data
    obtain ⟨ty', ay, hysplit'⟩ := List.eq_nil_or_concat y.data |>.resolve_left hy
    rw [List.concat_eq_append] at hysplit'
    have hay : (ay == '-') = false := hynd ay (by rw [hysplit']; simp)
    have := listStrip_dash_eq y.data 2
      ⟨cy, ty, hysplit, hcy⟩ ⟨ty', ay, hysplit', hay⟩
    simp only [List.replicate] at this
    simp only [string_data_append]
    simpa using this
  · refine String.ext ?_
    show listStrip (fun c => c == '-')
        (y ++ "-" ++ "" ++ "-" ++ d).data = (y ++ "--" ++ d).data
    obtain ⟨td, ad, hdsplit⟩ := List.eq_nil_or_concat d.data |>.resolve_left hd
    rw [List.concat_eq_append] at hdsplit
    have had : (ad == '-') = false := hdnd ad (by rw [hdsplit]; simp)
    have := listStrip_dash_eq (y.data ++ '-' :: '-' :: d.data) 0
      ⟨cy, ty ++ '-' :: '-' :: d.data, by rw [hysplit]; simp, hcy⟩
      ⟨y.data ++ '-' :: '-' :: td, ad, by rw [hdsplit]; simp, had⟩
    simp only [List.replicate, List.append_nil] at this
    simp only [string_data_append]
    simpa using this

/-- C7 amended witness: the four date shapes at concrete components. -/
theorem c7_pubdate_amended_witness :
    pubDateOfNode (some (PubDateNode.mk (some "2020") (some "Jan") (some "15"))) =
      "2020-Jan-15" ∧
    pubDateOfNode (some (PubDateNode.mk (some "2020") (some "Jan") none)) =
      "2020-Jan" ∧
    pubDateOfNode (some (PubDateNode.mk (some "2020") none none)) = "2020" ∧
    pubDateOfNode (some (PubDateNode.mk (some "2020") none (some "15"))) =
      "2020--15" := by
  have h := c7_pubdate_amended "2020" "Jan" "15" (by decide) (by decide)
    (by decide) (by decide) (by decide) (by decide)
  exact ⟨h.1, h.2.1, h.2.2.1, h.2.2.2⟩

theorem setAdd_nodup (s : List String) (x : String) (h : s.Nodup) :
    (setAdd s x).Nodup := by
  unfold setAdd
  split
  · exact h
  · rw [List.nodup_append]
    refine ⟨h, List.nodup_singleton x, ?_⟩
    intro a ha hax
    rw [List.mem_singleton] at hax
    subst hax
    exact absurd ha (by assumption)

theorem processAffOk_ca_nodup (name : String) (st : ExtractState) (t : String)
    (h : st.company_affiliations.Nodup) :
    (processAffOk name st t).company_affiliations.Nodup := by
  simp only [processAffOk]
  split
  all_goals split
  all_goals try split
  all_goals first
    | exact setAdd_nodup _ _ h
    | exact h

theorem extractAffs_ca_nodup (name : String) :
    ∀ (affs : List (Option String)) (st st' : ExtractState),
      extractAffs name st affs = .ok st' →
      st.company_affiliations.Nodup → st'.company_affiliations.Nodup := by
  intro affs
  induction affs with
  | nil =>
    intro st st' h hn
    simp only [extractAffs] at h
    cases h
    exact hn
  | cons aff rest ih =>
    intro st st' h hn
    simp only [extractAffs] at h
    cases aff with
    | none => simp [processAff] at h
    | some t =>
      simp only [processAff] at h
      exact ih _ _ h (processAffOk_ca_nodup name st t hn)

theorem extractAuthors_ca_nodup :
    ∀ (authors : List AuthorNode) (st st' : ExtractState),
      extractAuthors st authors = .ok st' →
      st.company_affiliations.Nodup → st'.company_affiliations.Nodup := by
  intro authors
  induction authors with
  | nil =>
    intro st st' h hn
    simp only [extractAuthors] at h
    cases h
    exact hn
  | cons a rest ih =>
    intro st st' h hn
    simp only [extractAuthors] at h
    cases hmid : extractAffs (authorName a) st a.AffiliationInfo with
    | error e => rw [hmid] at h; cases h
    | ok st₁ =>
      rw [hmid] at h
      exact ih _ _ h (extractAffs_ca_nodup (authorName a) _ _ _ hmid hn)

/-- C6: the `companyAffiliations` list returned by the extractor never
contains a duplicate string, even when the same affiliation text is
attached to several authors (the underlying Python value is a set). -/
theorem c6_company_affiliations_nodup (authors : List AuthorNode)
    (na ca : List String) (em : Option (List Char))
    (h : extract_authors_info authors = .ok (na, ca, em)) : ca.Nodup := by
  unfold extract_authors_info at h
  cases hrun : extractAuthors (ExtractState.mk [] [] none) authors with
  | error e => rw [hrun] at h; cases h
  | ok st =>
    rw [hrun] at h
    cases h
    exact extractAuthors_ca_nodup authors _ _ hrun (by simp)

/-- C6 witness: the same company affiliation attached to two authors
appears exactly once. -/
theorem c6_company_affiliations_nodup_witness :
    (["Acme Pharma Inc"] : List String).Nodup :=
  c6_company_affiliations_nodup
    [AuthorNode.mk (some "Doe") (some "J") [some "Acme Pharma Inc"],
     AuthorNode.mk (some "Roe") (some "K") [some "Acme Pharma Inc"]]
    ["Doe J", "Roe K"] ["Acme Pharma Inc"] none (by rfl)

theorem matchEmailAt_isEmpty_false (t m : List Char)
    (h : matchEmailAt t = some m) : m.isEmpty = false := by
  simp only [matchEmailAt] at h
  split at h
  · cases h
  · split at h
    · split at h
      · cases h
        rw [List.isEmpty_eq_false]
        intro hcon
        exact absurd (List.append_eq_nil.mp hcon).2 (by simp)
      · cases h
    · cases h

theorem re_search_email_isEmpty_false :
    ∀ (l m : List Char), re_search_email l = some m → m.isEmpty = false := by
  intro l
  induction l with
  | nil => intro m h; cases h
  | cons c rest ih =>
    intro m h
    simp only [re_search_email] at h
    cases hat : matchEmailAt (c :: rest) with
    | some m' =>
      rw [hat] at h
      cases h
      exact matchEmailAt_isEmpty_false _ _ hat
    | none =>
      rw [hat] at h
      exact ih m h

theorem emailFold_of_not_falsy (ts : List (List Char)) (e : Option (List Char))
    (h : pyFalsy e = false) : emailFold ts e = e := by
  induction ts with
  | nil => rfl
  | cons t ts ih =>
    simp only [emailFold, emailStep, h, Bool.false_eq_true, if_false]
    exact ih

theorem emailFold_none_eq_firstEmailSpec (ts : List (List Char)) :
    emailFold ts none = firstEmailSpec ts := by
  induction ts with
  | nil => rfl
  | cons t ts ih =>
    simp only [emailFold, firstEmailSpec, emailStep, pyFalsy, if_true]
    cases hs : re_search_email t with
    | some m =>
      exact emailFold_of_not_falsy ts (some m)
        (by simpa [pyFalsy] using re_search_email_isEmpty_false t m hs)
    | none => exact ih

theorem processAffOk_email (name : String) (st : ExtractState) (t : String) :
    (processAffOk name st t).corresponding_email =
      emailStep t.data st.corresponding_email := by
  simp only [processAffOk, emailStep]
  split
  all_goals split
  all_goals try split
  all_goals simp_all

theorem extractAffs_email (name : String) :
    ∀ (affs : List (Option String)) (st st' : ExtractState),
      extractAffs name st affs = .ok st' →
      st'.corresponding_email =
        emailFold (affs.map (fun o => (o.getD "").data)) st.corresponding_email := by
  intro affs
  induction affs with
  | nil =>
    intro st st' h
    simp only [extractAffs] at h
    cases h
    rfl
  | cons aff rest ih =>
    intro st st' h
    simp only [extractAffs] at h
    cases aff with
    | none => simp [processAff] at h
    | some t =>
      simp only [processAff] at h
      rw [List.map_cons]
      simp only [emailFold, Option.getD]
      rw [← processAffOk_email name st t]
      exact ih _ _ h

theorem emailFold_append (l₁ l₂ : List (List Char)) (e : Option (List Char)) :
    emailFold (l₁ ++ l₂) e = emailFold l₂ (emailFold l₁ e) := by
  induction l₁ generalizing e with
  | nil => rfl
  | cons t ts ih =>
    simp only [List.cons_append, emailFold]
    exact ih _

theorem extractAuthors_email :
    ∀ (authors : List AuthorNode) (st st' : ExtractState),
      extractAuthors st authors = .ok st' →
      st'.corresponding_email = emailFold (affTexts authors) st.corresponding_email := by
  intro authors
  induction authors with
  | nil =>
    intro st st' h
    simp only [extractAuthors] at h
    cases h
    rfl
  | cons a rest ih =>
    intro st st' h
    simp only [extractAuthors] at h
    cases hmid : extractAffs (authorName a) st a.AffiliationInfo with
    | error e => rw [hmid] at h; cases h
    | ok st₁ =>
      rw [hmid] at h
      rw [show affTexts (a :: rest) =
        a.AffiliationInfo.map (fun o => (o.getD "").data) ++ affTexts rest from rfl]
      rw [emailFold_append, ← extractAffs_email (authorName a) _ _ _ hmid]
      exact ih _ _ h

theorem firstEmailSpec_eq_none_iff (ts : List (List Char)) :
    firstEmailSpec ts = none ↔ ∀ t ∈ ts, re_search_email t = none := by
  induction ts with
  | nil => simp [firstEmailSpec]
  | cons t ts ih =>
    simp only [firstEmailSpec]
    cases hs : re_search_email t with
    | some m => simp [hs]
    | none => simp [hs, ih]

/-- C2: the extractor's corresponding email equals the first email-shaped
substring found while scanning every affiliation text of every author in
document order — independent of classification — and it is `none` exactly
when no affiliation text contains an email-shaped substring. -/
theorem c2_corresponding_email_first_match (authors : List AuthorNode)
    (na ca : List String) (em : Option (List Char))
    (h : extract_authors_info authors = .ok (na, ca, em)) :
    em = firstEmailSpec (affTexts authors) ∧
    (em = none ↔ ∀ t ∈ affTexts authors, re_search_email t = none) := by
  have hmain : em = firstEmailSpec (affTexts authors) := by
    unfold extract_authors_info at h
    cases hrun : extractAuthors (ExtractState.mk [] [] none) authors with
    | error e => rw [hrun] at h; cases h
    | ok st =>
      rw [hrun] at h
      cases h
      rw [extractAuthors_email authors _ _ hrun]
      exact emailFold_none_eq_firstEmailSpec (affTexts authors)
  refine ⟨hmain, ?_⟩
  rw [hmain]
  exact firstEmailSpec_eq_none_iff (affTexts authors)

/-- C2 witness: a concrete two-author paper where the first email sits in
an affiliation that is *not* company-classified. -/
theorem c2_corresponding_email_first_match_witness :
    (some ("a@uni.edu".data) : Option (List Char)) =
      firstEmailSpec (affTexts
        [AuthorNode.mk (some "Doe") (some "J") [some "State University, a@uni.edu"],
         AuthorNode.mk (some "Roe") (some "K") [some "Acme Pharma Inc, b@acme.com"]]) ∧
    ((some ("a@uni.edu".data) : Option (List Char)) = none ↔
      ∀ t ∈ affTexts
        [AuthorNode.mk (some "Doe") (some "J") [some "State University, a@uni.edu"],
         AuthorNode.mk (some "Roe") (some "K") [some "Acme Pharma Inc, b@acme.com"]],
        re_search_email t = none) :=
  c2_corresponding_email_first_match
    [AuthorNode.mk (some "Doe") (some "J") [some "State University, a@uni.edu"],
     AuthorNode.mk (some "Roe") (some "K") [some "Acme Pharma Inc, b@acme.com"]]
    ["Roe K"] ["Acme Pharma Inc, b@acme.com"] (some ("a@uni.edu".data)) (by rfl)

theorem processArticle_inv (a : ArticleNode) (p? : Option Paper)
    (h : processArticle a = .ok p?) :
    ∃ na ca em, extract_authors_info a.Authors = .ok (na, ca, em) ∧
      p? = if na.isEmpty then none else some (mkPaper a na ca em) := by
  unfold processArticle at h
  cases hex : extract_authors_info a.Authors with
  | error e => rw [hex] at h; cases h
  | ok trip =>
    rw [hex] at h
    obtain ⟨na, ca, em⟩ := trip
    cases h
    exact ⟨na, ca, em, rfl, rfl⟩

/-- C3: a record is in the parser's output iff its article's derived
`nonAcademicAuthors` list is non-empty; articles whose extraction yields
an empty list contribute nothing (filtering happens at parse time). -/
theorem c3_retained_iff_nonacademic_nonempty (doc : List ArticleNode)
    (rs : List Paper) (h : parse_pubmed_xml doc = .ok rs) (r : Paper) :
    r ∈ rs ↔ ∃ a ∈ doc, ∃ na ca em,
      extract_authors_info a.Authors = .ok (na, ca, em) ∧ na ≠ [] ∧
      r = mkPaper a na ca em := by
  induction doc generalizing rs with
  | nil =>
    simp only [parse_pubmed_xml] at h
    cases h
    simp
  | cons a rest ih =>
    simp only [parse_pubmed_xml] at h
    cases hpa : processArticle a with
    | error e => rw [hpa] at h; cases h
    | ok p? =>
      rw [hpa] at h
      cases hrest : parse_pubmed_xml rest with
      | error e => rw [hrest] at h; cases h
      | ok rs' =>
        rw [hrest] at h
        obtain ⟨na, ca, em, hex, hp⟩ := processArticle_inv a p? hpa
        have ihr := ih rs' hrest
        cases hna : na.isEmpty with
        | true =>
          have hnil : na = [] := List.isEmpty_iff.mp hna
          rw [hna, if_pos rfl] at hp
          subst hp
          cases h
          rw [ihr]
          constructor
          · rintro ⟨a', ha', w⟩
            exact ⟨a', List.mem_cons_of_mem a ha', w⟩
          · rintro ⟨a', ha', na', ca', em', hex', hne', hr'⟩
            rcases List.mem_cons.mp ha' with heq | hmem
            · subst heq
              rw [hex] at hex'
              simp only [Except.ok.injEq, Prod.mk.injEq] at hex'
              exact absurd (hnil ▸ hex'.1.symm) hne'
            · exact ⟨a', hmem, na', ca', em', hex', hne', hr'⟩
        | false =>
          have hne : na ≠ [] := by
            intro hcon
            rw [hcon] at hna
            cases hna
          rw [hna, if_neg (by simp)] at hp
          subst hp
          cases h
          rw [List.mem_cons, ihr]
          constructor
          · rintro (heq | ⟨a', ha', w⟩)
            · exact ⟨a, List.mem_cons_self a rest, na, ca, em, hex, hne, heq⟩
            · exact ⟨a', List.mem_cons_of_mem a ha', w⟩
          · rintro ⟨a', ha', na', ca', em', hex', hne', hr'⟩
            rcases List.mem_cons.mp ha' with heq | hmem
            · subst heq
              rw [hex] at hex'
              simp only [Except.ok.injEq, Prod.mk.injEq] at hex'
              obtain ⟨h1, h2, h3⟩ := hex'
              subst h1
              subst h2
              subst h3
              exact Or.inl hr'
            · exact Or.inr ⟨a', hmem, na', ca', em', hex', hne', hr'⟩

/-- C3 witness: a qualifying and a non-qualifying article; the single
output record corresponds to the qualifying one. -/
theorem c3_retained_iff_nonacademic_nonempty_witness :
    (Paper.mk (some "1") (some "T") "" "Doe John" "Acme Biotech Ltd" "N/A" ∈
      [Paper.mk (some "1") (some "T") "" "Doe John" "Acme Biotech Ltd" "N/A"]) ↔
    ∃ a ∈ [ArticleNode.mk (some "1") (some "T") none
             [AuthorNode.mk (some "Doe") (some "John") [some "Acme Biotech Ltd"]],
           ArticleNode.mk (some "2") (some "U") none
             [AuthorNode.mk (some "Roe") (some "K") [some "University Hospital"]]],
      ∃ na ca em, extract_authors_info a.Authors = .ok (na, ca, em) ∧ na ≠ [] ∧
        Paper.mk (some "1") (some "T") "" "Doe John" "Acme Biotech Ltd" "N/A" =
          mkPaper a na ca em :=
  c3_retained_iff_nonacademic_nonempty
    [ArticleNode.mk (some "1") (some "T") none
       [AuthorNode.mk (some "Doe") (some "John") [some "Acme Biotech Ltd"]],
     ArticleNode.mk (some "2") (some "U") none
       [AuthorNode.mk (some "Roe") (some "K") [some "University Hospital"]]]
    [Paper.mk (some "1") (some "T") "" "Doe John" "Acme Biotech Ltd" "N/A"]
    (by rfl)
    (Paper.mk (some "1") (some "T") "" "Doe John" "Acme Biotech Ltd" "N/A")

/-- C8 counterexample: the code joins with `"; "` (semicolon **space**),
so splitting the joined string back on `";"` leaves each later element
with a leading space and does not reproduce the original list. -/
theorem c8_split_counterexample :
    pySplitStr ";" (pyJoinStr "; " ["Doe John", "Smith Ann"]) =
      ["Doe John", " Smith Ann"] ∧
    (["Doe John", " Smith Ann"] : List String) ≠ ["Doe John", "Smith Ann"] :=
  ⟨by decide, by decide⟩

/-- `sep.join` at the character-list level. -/
def joinData (sep : List Char) : List (List Char) → List Char
  | [] => []
  | [x] => x
  | x :: xs => x ++ sep ++ joinData sep xs

theorem pyJoinStr_data (sep : String) :
    ∀ l : List String, (pyJoinStr sep l).data = joinData sep.data (l.map String.data)
  | [] => rfl
  | [x] => rfl
  | x :: y :: ys => by
    show (x ++ sep ++ pyJoinStr sep (y :: ys)).data = _
    rw [string_data_append, string_data_append, pyJoinStr_data sep (y :: ys)]
    rfl

theorem splitGo_nosep :
    ∀ (x acc : List Char), ¬ ([';', ' '] <:+: x) →
      splitGo [';', ' '] acc 0 x = [acc.reverse ++ x] := by
  intro x
  induction x with
  | nil => intro acc _; simp [splitGo]
  | cons c rest ih =>
    intro acc hx
    have hp : ([';', ' '].isPrefixOf (c :: rest)) = false := by
      rw [Bool.eq_false_iff]
      intro hcon
      exact hx ((isPrefixOf_true_iff _ _ |>.mp hcon).isInfix)
    simp only [splitGo, hp, Bool.false_eq_true, if_false]
    rw [ih (c :: acc) (fun hi => hx (List.infix_cons hi))]
    simp

theorem splitGo_boundary :
    ∀ (x : List Char) (acc r : List Char), ¬ ([';', ' '] <:+: x) →
      splitGo [';', ' '] acc 0 (x ++ ';' :: ' ' :: r) =
        (acc.reverse ++ x) :: splitGo [';', ' '] [] 0 r := by
  intro x
  induction x with
  | nil =>
    intro acc r _
    simp [splitGo, List.isPrefixOf]
  | cons c x' ih =>
    intro acc r hx
    have hp : ([';', ' '].isPrefixOf (c :: (x' ++ ';' :: ' ' :: r))) = false := by
      rw [Bool.eq_false_iff]
      intro hcon
      have hpre := isPrefixOf_true_iff _ _ |>.mp hcon
      obtain ⟨hc, hp2⟩ := List.cons_prefix_cons.mp hpre
      cases x' with
      | nil =>
        obtain ⟨hsp, _⟩ := List.cons_prefix_cons.mp hp2
        exact absurd hsp (by decide)
      | cons d x'' =>
        obtain ⟨hsp, _⟩ := List.cons_prefix_cons.mp hp2
        refine hx (List.IsPrefix.isInfix ⟨x'', ?_⟩)
        rw [← hc, ← hsp]
        rfl
    show splitGo [';', ' '] acc 0 (c :: (x' ++ ';' :: ' ' :: r)) = _
    simp only [splitGo, hp, Bool.false_eq_true, if_false]
    rw [ih (c :: acc) r (fun hi => hx (List.infix_cons hi))]
    simp

theorem split_join_list :
    ∀ ll : List (List Char), ll ≠ [] → (∀ x ∈ ll, ¬ ([';', ' '] <:+: x)) →
      pySplitList [';', ' '] (joinData [';', ' '] ll) = ll := by
  intro ll
  induction ll with
  | nil => intro h; exact absurd rfl h
  | cons x rest ih =>
    intro _ hsep
    cases rest with
    | nil =>
      show splitGo [';', ' '] [] 0 x = [x]
      rw [splitGo_nosep x [] (hsep x (by simp))]
      rfl
    | cons y ys =>
      show splitGo [';', ' '] [] 0 (x ++ [';', ' '] ++ joinData [';', ' '] (y :: ys)) = _
      rw [show x ++ [';', ' '] ++ joinData [';', ' '] (y :: ys) =
        x ++ ';' :: ' ' :: joinData [';', ' '] (y :: ys) by simp]
      rw [splitGo_boundary x [] (joinData [';', ' '] (y :: ys)) (hsep x (by simp))]
      rw [show splitGo [';', ' '] [] 0 (joinData [';', ' '] (y :: ys)) =
        pySplitList [';', ' '] (joinData [';', ' '] (y :: ys)) from rfl]
      rw [ih (by simp) (fun z hz => hsep z (List.mem_cons_of_mem x hz))]
      rfl

/-- C8 amended: splitting on the separator actually used, `"; "`, restores
the original ordered list, for any non-empty list of names/texts none of
which itself contains `"; "` as a substring (splitting an empty join or on
the bare `";"` does not). -/
theorem c8_roundtrip_amended (l : List String) (hne : l ≠ [])
    (hsep : ∀ s ∈ l, ¬ ([';', ' '] <:+: s.data)) :
    pySplitStr "; " (pyJoinStr "; " l) = l := by
  unfold pySplitStr pySplitList
  rw [show ("; " : String).data = [';', ' '] from rfl, pyJoinStr_data]
  rw [show splitGo [';', ' '] [] 0 (joinData [';', ' '] (l.map String.data)) =
    pySplitList [';', ' '] (joinData [';', ' '] (l.map String.data)) from rfl]
  rw [split_join_list (l.map String.data) (by simpa using hne)
    (by
      intro z hz
      obtain ⟨s, hs, rfl⟩ := List.mem_map.mp hz
      exact hsep s hs)]
  rw [List.map_map]
  have : (String.mk ∘ String.data) = id := by
    funext s
    exact string_mk_data s
  rw [this, List.map_id]

/-- C8 amended witness: the round trip on a concrete author-name list. -/
theorem c8_roundtrip_amended_witness :
    pySplitStr "; " (pyJoinStr "; " ["Doe John", "Smith Ann"]) =
      ["Doe John", "Smith Ann"] :=
  c8_roundtrip_amended ["Doe John", "Smith Ann"] (by decide) (by decide)
